import Mathlib

/-!
Verification of the attestation-agent core (AttestationAgent in
`attestation-agent/src/lib.rs`): the measurement-extension protocol and its
backing event log. Pure/stateful Rust code is shallowly embedded as Lean
functions over explicit state; the hash primitives, the attester hardware,
the event-log file sink, the token backends and the config parser live in
collaborator crates outside the embedded file and are modelled from the
specification at their interface boundary, abstractly where the spec leaves
them abstract.
-/

namespace AA

/-- Hash algorithms configurable for the event log (`config::HashAlgorithm`,
variants per the source's `match` in `AttestationAgent::init`). -/
inductive HashAlgorithm : Type
  | Sha256
  | Sha384
  | Sha512
deriving DecidableEq, Repr

/-- Bytes are modelled as lists of naturals. -/
abbrev Bytes := List Nat

/-- Modelled from the spec: `HashAlgorithm::digest` lives in the `config`
module, outside the embedded file; §4.1 specifies only that it is a pure,
deterministic, total function producing a fixed-length digest. It is kept
abstract: the development is parameterised over a digest function on the
canonical text. -/
def DigestFun : Type := HashAlgorithm → String → Bytes

/-- Modelled from the spec: one event entry (`eventlog::EventEntry`), with
`domain`, `operation` and `content` fields per §3. -/
structure EventEntry where
  domain : String
  operation : String
  content : String
deriving DecidableEq, Repr

/-- `EventEntry::new(domain, operation, content)`. -/
def EventEntry.new (domain operation content : String) : EventEntry :=
  ⟨domain, operation, content⟩

/-- Modelled from the spec: the canonical single-line textual form of an
entry (§4.2), a deterministic concatenation of the three fields with stable
delimiters. -/
def EventEntry.toText (e : EventEntry) : String :=
  e.domain ++ " " ++ e.operation ++ " " ++ e.content

/-- `EventEntry::digest_with(algorithm)`: the digest of the canonical text
under the chosen algorithm (§4.2). -/
def EventEntry.digest_with (e : EventEntry) (dig : DigestFun)
    (alg : HashAlgorithm) : Bytes :=
  dig alg e.toText

/-- Modelled from the spec: the in-memory view of `eventlog::EventLog`
(§4.3): an ordered sequence of canonical entry lines, plus the durable
sink's behaviour, abstracted as which lines the sink would fail to write
(I/O failure is an environment behaviour, not a function of the line). -/
structure EventLog where
  lines : List String
  writeFails : String → Bool

/-- Modelled from the spec: `EventLog::write_log` (§4.3) appends one line
durably; on write/flush failure the in-memory sequence is not advanced. -/
def EventLog.write_log (l : EventLog) (s : String) : Option EventLog :=
  if l.writeFails s then none
  else some { l with lines := l.lines ++ [s] }

/-- The attester's tri-state init-data answer (`attester::InitdataResult`,
re-exported by the embedded file). -/
inductive InitdataResult : Type
  | Ok
  | Unsupported
deriving DecidableEq, Repr

/-- Modelled from the spec: the Attester capability (§4.4). `regs` maps a
register index to its current value; `ext` is the platform's chaining
function (new = hash(old ‖ digest) or platform-equivalent), kept abstract;
`extendFails` is the environment's hardware-failure behaviour;
`evidence` and `initdata` are the evidence and init-data capabilities. -/
structure Attester where
  regs : Nat → Bytes
  ext : Bytes → Bytes → Bytes
  extendFails : Bytes → Nat → Bool
  evidence : Bytes → Except String Bytes
  initdata : Bytes → Except String InitdataResult

/-- The successful effect of one register extension: register `idx` becomes
the chain of its old value with `digest`; every other register is
untouched. -/
def Attester.extendStep (a : Attester) (digest : Bytes) (idx : Nat) :
    Attester :=
  { a with
    regs := fun j => if j = idx then a.ext (a.regs idx) digest else a.regs j }

/-- Modelled from the spec: `Attester::extend_runtime_measurement` (§4.4)
physically extends register `idx` with `digest` via the chaining function,
or fails. -/
def Attester.extend_runtime_measurement (a : Attester) (digest : Bytes)
    (idx : Nat) : Option Attester :=
  if a.extendFails digest idx then none
  else some (a.extendStep digest idx)

/-- Event-log part of the configuration: `config.eventlog_config`
(`eventlog_algorithm` and `init_pcr` as read by the source). -/
structure EventlogConfig where
  eventlog_algorithm : HashAlgorithm
  init_pcr : Nat
deriving DecidableEq, Repr

/-- Token back-end sub-configurations (`config.token_configs.kbs` /
`config.token_configs.coco_as`), opaque to the core. -/
structure TokenConfigs where
  kbs : String
  coco_as : String
deriving DecidableEq, Repr

/-- The agent configuration (`config::Config`) as read by the embedded
file. -/
structure Config where
  eventlog_config : EventlogConfig
  token_configs : TokenConfigs
deriving DecidableEq, Repr

/-- The agent state: `struct AttestationAgent { config, attester,
eventlog }`. The tokio `Mutex` around the event log is modelled explicitly
only in the concurrent protocol model below; the sequential operations hold
it for their whole extend-and-log section. -/
structure AttestationAgent where
  config : Config
  attester : Attester
  eventlog : EventLog

/-- The INIT entry text chosen by `AttestationAgent::init` for each
algorithm (verbatim from the source `match`). -/
def init_entry : HashAlgorithm → String
  | HashAlgorithm.Sha256 => "INIT sha256/0000000000000000000000000000000000000000000000000000000000000000"
  | HashAlgorithm.Sha384 => "INIT sha384/000000000000000000000000000000000000000000000000000000000000000000000000000000000000000000000000"
  | HashAlgorithm.Sha512 => "INIT sha512/00000000000000000000000000000000000000000000000000000000000000000000000000000000000000000000000000000000000000000000000000000000"

/-- `AttestationAgent::init`: builds the INIT entry for the configured
algorithm, digests it, extends the register at `config.eventlog_config.init_pcr`,
then appends the entry text to the log; an attester failure returns the
error before any append, a log failure returns the error after the
extension. -/
def AttestationAgent.init (dig : DigestFun) (a : AttestationAgent) :
    AttestationAgent × Option String :=
  let entry := init_entry a.config.eventlog_config.eventlog_algorithm
  let event_digest := dig a.config.eventlog_config.eventlog_algorithm entry
  match a.attester.extend_runtime_measurement event_digest
      a.config.eventlog_config.init_pcr with
  | none => (a, some "write INIT entry")
  | some att =>
    match a.eventlog.write_log entry with
    | none => ({ a with attester := att }, some "write INIT log")
    | some el => ({ a with attester := att, eventlog := el }, none)

/-- `DEFAULT_PCR_INDEX`: the default register index used when the caller
supplies none. -/
def DEFAULT_PCR_INDEX : Nat := 17

/-- `AttestationAgent::extend_runtime_measurement`: resolves the register
index (default `DEFAULT_PCR_INDEX`), builds the entry, digests its
canonical text under the configured algorithm, extends the register, then
appends the canonical text to the log; an attester failure returns before
any append, a log failure returns after the extension. -/
def AttestationAgent.extend_runtime_measurement (dig : DigestFun)
    (a : AttestationAgent) (domain operation content : String)
    (register_index : Option Nat) : AttestationAgent × Option String :=
  let idx := register_index.getD DEFAULT_PCR_INDEX
  let log_entry := EventEntry.new domain operation content
  let event_digest := log_entry.digest_with dig
    a.config.eventlog_config.eventlog_algorithm
  match a.attester.extend_runtime_measurement event_digest idx with
  | none => (a, some "extend_runtime_measurement error")
  | some att =>
    match a.eventlog.write_log log_entry.toText with
    | none => ({ a with attester := att }, some "write log error")
    | some el => ({ a with attester := att, eventlog := el }, none)

/-- `AttestationAgent::get_evidence`: delegates to the attester and turns
the evidence into raw bytes. The source converts the attester's `String`
evidence with `into_bytes`; evidence is already bytes in the model, so the
conversion is the identity. -/
def AttestationAgent.get_evidence (a : AttestationAgent)
    (runtime_data : Bytes) : AttestationAgent × Except String Bytes :=
  (a, a.attester.evidence runtime_data)

/-- `AttestationAgent::check_init_data`: delegates to the attester. -/
def AttestationAgent.check_init_data (a : AttestationAgent)
    (init_data : Bytes) : AttestationAgent × Except String InitdataResult :=
  (a, a.attester.initdata init_data)

/-- The compiled token-getter variants (`token::TokenType`). -/
inductive TokenType : Type
  | Kbs
  | CoCoAS
deriving DecidableEq, Repr

/-- Modelled from the spec: `TokenType::from_str` lives in the `token`
module, outside the embedded file; §4.5 says `get_token` resolves
`token_type` to a configured variant and fails for any string naming no
variant of the compiled set. -/
def TokenType.from_str (s : String) : Option TokenType :=
  if s = "kbs" then some TokenType.Kbs
  else if s = "coco_as" then some TokenType.CoCoAS
  else none

/-- `AttestationAgent::get_token`: resolves the token type and delegates to
the matching getter (the getters' network protocols are abstracted as
functions of their sub-configuration); an unknown type is a configuration
error with the source's "Unsupported token type" context. -/
def AttestationAgent.get_token
    (getKbs getCoCoAS : String → Except String Bytes)
    (a : AttestationAgent) (token_type : String) :
    AttestationAgent × Except String Bytes :=
  match TokenType.from_str token_type with
  | none => (a, Except.error "Unsupported token type")
  | some TokenType.Kbs => (a, getKbs a.config.token_configs.kbs)
  | some TokenType.CoCoAS => (a, getCoCoAS a.config.token_configs.coco_as)

/-- `AttestationAgent::update_configuration`: writes `conf` to a temp file
and re-parses it as a whole `Config`, then assigns the parsed value over
`self.config`. `Config::try_from` and the tempfile I/O live outside the
embedded file and are modelled from the spec as an abstract parser and an
environment I/O-success flag; the assignment only happens after parsing
succeeds. -/
def AttestationAgent.update_configuration
    (parseConfig : String → Option Config) (tempfileOk : Bool)
    (a : AttestationAgent) (conf : String) :
    AttestationAgent × Option String :=
  if tempfileOk = false then (a, some "tempfile I/O error")
  else
    match parseConfig conf with
    | none => (a, some "config parse error")
    | some config => ({ a with config := config }, none)

/-- Replaying a log through the register-extension chaining function: fold
the chaining step over the canonical lines, digesting each line under the
log's algorithm (§3's core invariant, §8's replay). -/
def replayLog (ext : Bytes → Bytes → Bytes) (dig : DigestFun)
    (alg : HashAlgorithm) (start : Bytes) (lines : List String) : Bytes :=
  lines.foldl (fun r line => ext r (dig alg line)) start

/-- The textual name of an algorithm as it appears in the INIT entry. -/
def HashAlgorithm.name : HashAlgorithm → String
  | HashAlgorithm.Sha256 => "sha256"
  | HashAlgorithm.Sha384 => "sha384"
  | HashAlgorithm.Sha512 => "sha512"

/-- Hex length of each algorithm's digest output (two hex characters per
output byte: 32, 48 and 64 bytes respectively). -/
def HashAlgorithm.digestHexLen : HashAlgorithm → Nat
  | HashAlgorithm.Sha256 => 64
  | HashAlgorithm.Sha384 => 96
  | HashAlgorithm.Sha512 => 128

/-- An all-zero lowercase hex string of `n` characters. -/
def zeroHexString (n : Nat) : String :=
  String.mk (List.replicate n '0')

/-- One call's arguments to `extend_runtime_measurement`. -/
structure ExtendCall where
  domain : String
  operation : String
  content : String
  register_index : Option Nat

/-- Issue a list of `extend_runtime_measurement` calls one at a time,
stopping at the first failure; the Bool reports whether every call
succeeded. -/
def runExtends (dig : DigestFun) :
    AttestationAgent → List ExtendCall → AttestationAgent × Bool
  | a, [] => (a, true)
  | a, c :: rest =>
    match AttestationAgent.extend_runtime_measurement dig a c.domain
        c.operation c.content c.register_index with
    | (a', none) => runExtends dig a' rest
    | (a', some _) => (a', false)

/-! ### Inversion lemmas for the two fallible collaborator steps -/

theorem Attester.extend_rm_eq_some {a att : Attester} {d : Bytes} {i : Nat}
    (h : a.extend_runtime_measurement d i = some att) :
    a.extendFails d i = false ∧ att = a.extendStep d i := by
  unfold Attester.extend_runtime_measurement at h
  by_cases hf : a.extendFails d i = true
  · simp [hf] at h
  · simp only [Bool.not_eq_true] at hf
    simp [hf] at h
    exact ⟨hf, h.symm⟩

theorem EventLog.write_log_eq_some {l l' : EventLog} {s : String}
    (h : l.write_log s = some l') :
    l.writeFails s = false ∧ l' = { l with lines := l.lines ++ [s] } := by
  unfold EventLog.write_log at h
  by_cases hf : l.writeFails s = true
  · simp [hf] at h
  · simp only [Bool.not_eq_true] at hf
    simp [hf] at h
    exact ⟨hf, h.symm⟩

/-! ### Characterisation of a successful `init` and a successful
`extend_runtime_measurement` -/

/-- What a successful `init` did: register `init_pcr` was extended with the
digest of the INIT entry, the entry's text was appended to the log, and
nothing else changed. -/
theorem AttestationAgent.init_spec {dig : DigestFun}
    {a a' : AttestationAgent}
    (h : AttestationAgent.init dig a = (a', none)) :
    a'.config = a.config
    ∧ a'.attester = a.attester.extendStep
        (dig a.config.eventlog_config.eventlog_algorithm
          (init_entry a.config.eventlog_config.eventlog_algorithm))
        a.config.eventlog_config.init_pcr
    ∧ a'.eventlog.lines = a.eventlog.lines
        ++ [init_entry a.config.eventlog_config.eventlog_algorithm]
    ∧ a'.eventlog.writeFails = a.eventlog.writeFails := by
  unfold AttestationAgent.init at h
  cases hx : a.attester.extend_runtime_measurement
      (dig a.config.eventlog_config.eventlog_algorithm
        (init_entry a.config.eventlog_config.eventlog_algorithm))
      a.config.eventlog_config.init_pcr with
  | none => simp [hx] at h
  | some att =>
    simp only [hx] at h
    cases hw : a.eventlog.write_log
        (init_entry a.config.eventlog_config.eventlog_algorithm) with
    | none => simp [hw] at h
    | some el =>
      simp only [hw, Prod.mk.injEq, and_true] at h
      subst h
      obtain ⟨-, rfl⟩ := Attester.extend_rm_eq_some hx
      obtain ⟨-, rfl⟩ := EventLog.write_log_eq_some hw
      exact ⟨rfl, rfl, rfl, rfl⟩

/-- What a successful `extend_runtime_measurement` did: the register at the
resolved index was extended with the digest of the entry's canonical text,
that text was appended to the log, and nothing else changed. -/
theorem AttestationAgent.extend_rm_spec {dig : DigestFun}
    {a a' : AttestationAgent} {domain operation content : String}
    {register_index : Option Nat}
    (h : AttestationAgent.extend_runtime_measurement dig a domain operation
      content register_index = (a', none)) :
    a'.config = a.config
    ∧ a'.attester = a.attester.extendStep
        ((EventEntry.new domain operation content).digest_with dig
          a.config.eventlog_config.eventlog_algorithm)
        (register_index.getD DEFAULT_PCR_INDEX)
    ∧ a'.eventlog.lines = a.eventlog.lines
        ++ [(EventEntry.new domain operation content).toText]
    ∧ a'.eventlog.writeFails = a.eventlog.writeFails := by
  unfold AttestationAgent.extend_runtime_measurement at h
  cases hx : a.attester.extend_runtime_measurement
      ((EventEntry.new domain operation content).digest_with dig
        a.config.eventlog_config.eventlog_algorithm)
      (register_index.getD DEFAULT_PCR_INDEX) with
  | none => simp [hx] at h
  | some att =>
    simp only [hx] at h
    cases hw : a.eventlog.write_log
        (EventEntry.new domain operation content).toText with
    | none => simp [hw] at h
    | some el =>
      simp only [hw, Prod.mk.injEq, and_true] at h
      subst h
      obtain ⟨-, rfl⟩ := Attester.extend_rm_eq_some hx
      obtain ⟨-, rfl⟩ := EventLog.write_log_eq_some hw
      exact ⟨rfl, rfl, rfl, rfl⟩

/-! ### Concrete fixture used by the witnesses -/

/-- A concrete digest function for the witnesses (digest = length of the
canonical text, as a one-byte value). -/
def testDig : DigestFun := fun _ s => [s.length]

/-- A concrete attester that never fails; the chaining function is
concatenation. -/
def testAttester : Attester :=
  { regs := fun _ => List.replicate 32 0
  , ext := fun old d => old ++ d
  , extendFails := fun _ _ => false
  , evidence := fun rd => Except.ok rd
  , initdata := fun _ => Except.ok InitdataResult.Ok }

/-- A concrete attester whose register extension always fails. -/
def brokenAttester : Attester :=
  { testAttester with extendFails := fun _ _ => true }

/-- A concrete configuration: SHA-256 event log, init PCR 17. -/
def testConfig : Config :=
  { eventlog_config :=
      { eventlog_algorithm := HashAlgorithm.Sha256, init_pcr := 17 }
  , token_configs := { kbs := "kbs-addr", coco_as := "as-addr" } }

/-- An empty event log whose sink never fails. -/
def testLog : EventLog :=
  { lines := [], writeFails := fun _ => false }

/-- A concrete healthy agent. -/
def testAgent : AttestationAgent :=
  { config := testConfig, attester := testAttester, eventlog := testLog }

/-- A concrete agent whose attester's register extension always fails. -/
def brokenAgent : AttestationAgent :=
  { testAgent with attester := brokenAttester }

/-- The concrete agent after one successful `init`. -/
def testAgent1 : AttestationAgent :=
  (AttestationAgent.init testDig testAgent).1

/-- The concrete agent after two successful `init` calls. -/
def testAgent2 : AttestationAgent :=
  (AttestationAgent.init testDig testAgent1).1

/-- A second concrete configuration, distinct from `testConfig` in every
field. -/
def otherConfig : Config :=
  { eventlog_config :=
      { eventlog_algorithm := HashAlgorithm.Sha384, init_pcr := 3 }
  , token_configs := { kbs := "kbs2", coco_as := "as2" } }

/-- Byte length of each algorithm's digest output. -/
def HashAlgorithm.digestByteLen : HashAlgorithm → Nat
  | HashAlgorithm.Sha256 => 32
  | HashAlgorithm.Sha384 => 48
  | HashAlgorithm.Sha512 => 64

/-- The all-zero register value of an algorithm's output length: the
register's reset value that the INIT entry models (§4.1). -/
def zero_digest (alg : HashAlgorithm) : Bytes :=
  List.replicate alg.digestByteLen 0

/-- Replaying a log extended by one line chains the replayed prefix with
the digest of that line. -/
theorem replayLog_append (ext : Bytes → Bytes → Bytes) (dig : DigestFun)
    (alg : HashAlgorithm) (z : Bytes) (l : List String) (s : String) :
    replayLog ext dig alg z (l ++ [s])
      = ext (replayLog ext dig alg z l) (dig alg s) := by
  unfold replayLog
  rw [List.foldl_append]
  rfl

/-- Invariant of `runExtends`: a successful sequence of one-at-a-time
extension calls, all resolving to register `i`, preserves the configuration
and the chaining function, and preserves "the log replayed from `z` equals
register `i`". -/
theorem runExtends_replay_inv (dig : DigestFun) (calls : List ExtendCall) :
    ∀ (a : AttestationAgent) (i : Nat),
    (∀ c ∈ calls, c.register_index.getD DEFAULT_PCR_INDEX = i) →
    (runExtends dig a calls).2 = true →
    (runExtends dig a calls).1.config = a.config
    ∧ (runExtends dig a calls).1.attester.ext = a.attester.ext
    ∧ ∀ z : Bytes,
        replayLog a.attester.ext dig
          a.config.eventlog_config.eventlog_algorithm z a.eventlog.lines
          = a.attester.regs i →
        replayLog a.attester.ext dig
          a.config.eventlog_config.eventlog_algorithm z
          (runExtends dig a calls).1.eventlog.lines
          = (runExtends dig a calls).1.attester.regs i := by
  induction calls with
  | nil => exact fun a i _ _ => ⟨rfl, rfl, fun z h => h⟩
  | cons c rest ih =>
    intro a i hidx hok
    rcases hstep : AttestationAgent.extend_runtime_measurement dig a
        c.domain c.operation c.content c.register_index with ⟨a', res⟩
    cases res with
    | some e =>
      simp only [runExtends, hstep] at hok
      exact Bool.noConfusion hok
    | none =>
      simp only [runExtends, hstep] at hok ⊢
      obtain ⟨hc, ha, hl, -⟩ := AttestationAgent.extend_rm_spec hstep
      have hi : c.register_index.getD DEFAULT_PCR_INDEX = i :=
        hidx c (List.mem_cons_self c rest)
      have hext : a'.attester.ext = a.attester.ext := by
        rw [ha]; rfl
      obtain ⟨ihc, ihe, ihrep⟩ :=
        ih a' i (fun d hd => hidx d (List.mem_cons_of_mem c hd)) hok
      refine ⟨ihc.trans hc, ihe.trans hext, fun z hz => ?_⟩
      have hz' : replayLog a'.attester.ext dig
          a'.config.eventlog_config.eventlog_algorithm z a'.eventlog.lines
          = a'.attester.regs i := by
        rw [hext, hc, hl, ha, hi]
        rw [replayLog_append, hz]
        simp [Attester.extendStep, EventEntry.digest_with]
      have hfin := ihrep z hz'
      rw [hext, hc] at hfin
      exact hfin

/-! ### Concurrency model

Modelled from the spec (§5): the embedded file holds the tokio `Mutex`
guard across the register extension and the log append; the `Mutex`
semantics themselves live outside the embedded file. Each of `n` concurrent
callers of `extend_runtime_measurement` runs the critical section as three
observable atomic actions: acquire the guard, extend the register, append
to the log and release the guard. -/

namespace Conc

/-- Program counter of one concurrent caller: before the lock, holding the
lock before its register extension, holding the lock between its extension
and its append, and returned. -/
inductive PC : Type
  | start
  | locked
  | extended
  | done
deriving DecidableEq, Repr

/-- Global state of the concurrent system: every caller's program counter,
the guard's holder (if any), the shared attester and the shared log. -/
structure CState (n : Nat) where
  pcs : Fin n → PC
  lock : Option (Fin n)
  att : Attester
  log : EventLog

/-- One interleaving step, caller `c` issuing the entry `entry c` resolved
to register index `idx c`. The guard is held from `acquire` to `append`,
across both sub-steps, exactly as the source holds the guard across
`attester.extend_runtime_measurement` and `eventlog.write_log`. -/
inductive Step (dig : DigestFun) (alg : HashAlgorithm) {n : Nat}
    (entry : Fin n → EventEntry) (idx : Fin n → Nat) :
    CState n → CState n → Prop
  | acquire (s : CState n) (c : Fin n) :
      s.pcs c = PC.start → s.lock = none →
      Step dig alg entry idx s
        { s with pcs := Function.update s.pcs c PC.locked, lock := some c }
  | extend (s : CState n) (c : Fin n) (att' : Attester) :
      s.pcs c = PC.locked → s.lock = some c →
      s.att.extend_runtime_measurement (dig alg (entry c).toText) (idx c)
        = some att' →
      Step dig alg entry idx s
        { s with pcs := Function.update s.pcs c PC.extended, att := att' }
  | append (s : CState n) (c : Fin n) (log' : EventLog) :
      s.pcs c = PC.extended → s.lock = some c →
      s.log.write_log (entry c).toText = some log' →
      Step dig alg entry idx s
        { s with pcs := Function.update s.pcs c PC.done, lock := none,
                 log := log' }

/-- The successful register-extension effect folded over a list of callers
in order. -/
def foldExtend (dig : DigestFun) (alg : HashAlgorithm) {n : Nat}
    (entry : Fin n → EventEntry) (idx : Fin n → Nat) (att0 : Attester)
    (order : List (Fin n)) : Attester :=
  order.foldl
    (fun att c => att.extendStep (dig alg (entry c).toText) (idx c)) att0

theorem foldExtend_concat (dig : DigestFun) (alg : HashAlgorithm) {n : Nat}
    (entry : Fin n → EventEntry) (idx : Fin n → Nat) (att0 : Attester)
    (order : List (Fin n)) (c : Fin n) :
    foldExtend dig alg entry idx att0 (order ++ [c])
      = (foldExtend dig alg entry idx att0 order).extendStep
          (dig alg (entry c).toText) (idx c) := by
  unfold foldExtend
  rw [List.foldl_append]
  rfl

/-- The protocol invariant: the log holds exactly the entries of the `done`
callers in some duplicate-free order, the attester is the fold of the
extensions in that same order (plus the guard holder's pending extension
when it sits between its extend and its append), and only the guard holder
can be inside the critical section. -/
def Inv (dig : DigestFun) (alg : HashAlgorithm) {n : Nat}
    (entry : Fin n → EventEntry) (idx : Fin n → Nat)
    (att0 : Attester) (lines0 : List String) (s : CState n) : Prop :=
  ∃ order : List (Fin n),
    order.Nodup
    ∧ (∀ c, c ∈ order ↔ s.pcs c = PC.done)
    ∧ s.log.lines = lines0 ++ order.map (fun c => (entry c).toText)
    ∧ match s.lock with
      | none =>
          (∀ c, s.pcs c ≠ PC.locked ∧ s.pcs c ≠ PC.extended)
          ∧ s.att = foldExtend dig alg entry idx att0 order
      | some h =>
          (∀ c, c ≠ h → s.pcs c ≠ PC.locked ∧ s.pcs c ≠ PC.extended)
          ∧ ((s.pcs h = PC.locked
              ∧ s.att = foldExtend dig alg entry idx att0 order)
            ∨ (s.pcs h = PC.extended
              ∧ s.att = foldExtend dig alg entry idx att0 (order ++ [h])))

theorem Inv.preserved {dig : DigestFun} {alg : HashAlgorithm} {n : Nat}
    {entry : Fin n → EventEntry} {idx : Fin n → Nat} {att0 : Attester}
    {lines0 : List String} {s s' : CState n}
    (hs : Step dig alg entry idx s s')
    (h : Inv dig alg entry idx att0 lines0 s) :
    Inv dig alg entry idx att0 lines0 s' := by
  obtain ⟨order, hnd, hmem, hlog, hlock⟩ := h
  cases hs with
  | acquire c hpc hlk =>
    simp only [hlk] at hlock
    refine ⟨order, hnd, ?_, hlog, ?_⟩
    · intro d
      by_cases hd : d = c
      · subst hd
        simp only [Function.update_same]
        constructor
        · intro hmem2
          exact absurd ((hmem d).mp hmem2) (by rw [hpc]; intro hh; exact PC.noConfusion hh)
        · intro hh; exact PC.noConfusion hh
      · simp only [Function.update_noteq hd]
        exact hmem d
    · refine ⟨?_, ?_⟩
      · intro d hd
        simp only [Function.update_noteq hd]
        exact hlock.1 d
      · left
        exact ⟨Function.update_same c PC.locked s.pcs, hlock.2⟩
  | extend c att' hpc hlk hext =>
    simp only [hlk] at hlock
    obtain ⟨hothers, hcase⟩ := hlock
    have hatt : s.att = foldExtend dig alg entry idx att0 order := by
      rcases hcase with ⟨-, ha⟩ | ⟨hpc2, -⟩
      · exact ha
      · rw [hpc] at hpc2; exact absurd hpc2 (by intro hh; exact PC.noConfusion hh)
    obtain ⟨-, hstep⟩ := Attester.extend_rm_eq_some hext
    refine ⟨order, hnd, ?_, hlog, ?_⟩
    · intro d
      by_cases hd : d = c
      · subst hd
        simp only [Function.update_same]
        constructor
        · intro hmem2
          have := (hmem d).mp hmem2
          rw [hpc] at this
          exact absurd this (by intro hh; exact PC.noConfusion hh)
        · intro hh; exact PC.noConfusion hh
      · simp only [Function.update_noteq hd]
        exact hmem d
    · simp only [hlk]
      refine ⟨?_, ?_⟩
      · intro d hd
        simp only [Function.update_noteq hd]
        exact hothers d hd
      · right
        refine ⟨Function.update_same c PC.extended s.pcs, ?_⟩
        rw [hstep, hatt, foldExtend_concat]
  | append c log' hpc hlk hw =>
    simp only [hlk] at hlock
    obtain ⟨hothers, hcase⟩ := hlock
    have hatt : s.att = foldExtend dig alg entry idx att0 (order ++ [c]) := by
      rcases hcase with ⟨hpc2, -⟩ | ⟨-, ha⟩
      · rw [hpc] at hpc2; exact absurd hpc2 (by intro hh; exact PC.noConfusion hh)
      · exact ha
    have hcnotmem : c ∉ order := by
      intro hc
      have := (hmem c).mp hc
      rw [hpc] at this
      exact absurd this (by intro hh; exact PC.noConfusion hh)
    obtain ⟨-, hlog'⟩ := EventLog.write_log_eq_some hw
    refine ⟨order ++ [c], ?_, ?_, ?_, ?_⟩
    · simp [List.nodup_append, hnd, List.disjoint_singleton, hcnotmem]
    · intro d
      by_cases hd : d = c
      · subst hd
        simp only [Function.update_same]
        simp
      · simp only [Function.update_noteq hd]
        simp only [List.mem_append, List.mem_singleton, hd, or_false]
        exact hmem d
    · simp [hlog', hlog]
    · refine ⟨?_, ?_⟩
      · intro d
        by_cases hd : d = c
        · subst hd
          simp only [Function.update_same]
          exact ⟨fun hh => PC.noConfusion hh, fun hh => PC.noConfusion hh⟩
        · simp only [Function.update_noteq hd]
          exact hothers d hd
      · exact hatt

theorem Inv.reachable {dig : DigestFun} {alg : HashAlgorithm} {n : Nat}
    {entry : Fin n → EventEntry} {idx : Fin n → Nat} {s0 s : CState n}
    (hpc : ∀ c, s0.pcs c = PC.start) (hlk : s0.lock = none)
    (hr : Relation.ReflTransGen (Step dig alg entry idx) s0 s) :
    Inv dig alg entry idx s0.att s0.log.lines s := by
  induction hr with
  | refl =>
    refine ⟨[], List.nodup_nil, ?_, by simp, ?_⟩
    · intro c
      simp only [List.not_mem_nil, false_iff, hpc c]
      intro hh; exact PC.noConfusion hh
    · simp only [hlk]
      constructor
      · intro c
        rw [hpc c]
        exact ⟨fun hh => PC.noConfusion hh, fun hh => PC.noConfusion hh⟩
      · rfl
  | @tail b c hab hbc ih => exact Inv.preserved hbc ih

end Conc

/-! ### Claims -/

/-- C2: `n` concurrent callers each issuing one `extend_runtime_measurement`
call, interleaved arbitrarily but respecting the exclusive guard held across
the register extension and the log append, always terminate with exactly
`n` new log entries — each caller's entry exactly once — and with the
attester equal to the fold of the `n` register extensions applied in
exactly the order of the log's entries: extension and append are atomic
with respect to all other callers, with no interleaving between them. -/
theorem concurrent_extends_are_serialized (dig : DigestFun)
    (alg : HashAlgorithm) {n : Nat} (entry : Fin n → EventEntry)
    (idx : Fin n → Nat) (s0 s : Conc.CState n)
    (hpc : ∀ c, s0.pcs c = Conc.PC.start) (hlk : s0.lock = none)
    (hr : Relation.ReflTransGen (Conc.Step dig alg entry idx) s0 s)
    (ht : ∀ c, s.pcs c = Conc.PC.done) :
    ∃ order : List (Fin n),
      order.Nodup ∧ order.length = n ∧ (∀ c, c ∈ order)
      ∧ s.log.lines = s0.log.lines
          ++ order.map (fun c => (entry c).toText)
      ∧ s.att = Conc.foldExtend dig alg entry idx s0.att order := by
  obtain ⟨order, hnd, hmem, hlog, hlock⟩ := Conc.Inv.reachable hpc hlk hr
  have hlknone : s.lock = none := by
    cases hlkc : s.lock with
    | none => rfl
    | some h =>
      rw [hlkc] at hlock
      rcases hlock.2 with ⟨hpc2, -⟩ | ⟨hpc2, -⟩ <;>
        · rw [ht h] at hpc2
          exact absurd hpc2 (by intro hh; exact Conc.PC.noConfusion hh)
  rw [hlknone] at hlock
  have hall : ∀ c, c ∈ order := fun c => (hmem c).mpr (ht c)
  have hlen : order.length = n := by
    have huniv : order.toFinset = Finset.univ :=
      Finset.eq_univ_iff_forall.mpr (fun c => List.mem_toFinset.mpr (hall c))
    have := List.toFinset_card_of_nodup hnd
    rw [huniv, Finset.card_univ, Fintype.card_fin] at this
    exact this.symm
  exact ⟨order, hnd, hlen, hall, hlog, hlock.2⟩

/-- Witness fixture for the concurrency claim: one concrete caller. -/
def wEntry : Fin 1 → EventEntry :=
  fun _ => EventEntry.new "wdomain" "woperation" "wcontent"

/-- Witness fixture: the one caller resolves to register index 17. -/
def wIdx : Fin 1 → Nat := fun _ => 17

/-- Witness fixture: the initial concurrent state. -/
def cState0 : Conc.CState 1 :=
  { pcs := fun _ => Conc.PC.start, lock := none, att := testAttester,
    log := testLog }

/-- Witness fixture: after the caller acquires the guard. -/
def cState1 : Conc.CState 1 :=
  { cState0 with
    pcs := Function.update cState0.pcs 0 Conc.PC.locked
    lock := some 0 }

/-- Witness fixture: after the caller's register extension. -/
def cState2 : Conc.CState 1 :=
  { cState1 with
    pcs := Function.update cState1.pcs 0 Conc.PC.extended
    att := cState1.att.extendStep
      (testDig HashAlgorithm.Sha256 (wEntry 0).toText) (wIdx 0) }

/-- Witness fixture: after the caller's log append and guard release. -/
def cState3 : Conc.CState 1 :=
  { cState2 with
    pcs := Function.update cState2.pcs 0 Conc.PC.done
    lock := none
    log := { cState2.log with
      lines := cState2.log.lines ++ [(wEntry 0).toText] } }

/-- Witness for C2: a concrete complete interleaving of one caller. -/
theorem concurrent_extends_are_serialized_witness :
    (∀ c, cState0.pcs c = Conc.PC.start)
    ∧ (∀ c, cState3.pcs c = Conc.PC.done)
    ∧ ∃ order : List (Fin 1),
        order.Nodup ∧ order.length = 1 ∧ (∀ c, c ∈ order)
        ∧ cState3.log.lines = cState0.log.lines
            ++ order.map (fun c => (wEntry c).toText)
        ∧ cState3.att = Conc.foldExtend testDig HashAlgorithm.Sha256 wEntry
            wIdx cState0.att order := by
  have h1 : Conc.Step testDig HashAlgorithm.Sha256 wEntry wIdx
      cState0 cState1 :=
    Conc.Step.acquire cState0 0 rfl rfl
  have h2 : Conc.Step testDig HashAlgorithm.Sha256 wEntry wIdx
      cState1 cState2 :=
    Conc.Step.extend cState1 0 cState2.att rfl rfl rfl
  have h3 : Conc.Step testDig HashAlgorithm.Sha256 wEntry wIdx
      cState2 cState3 :=
    Conc.Step.append cState2 0 cState3.log rfl rfl rfl
  exact ⟨fun c => rfl, by decide,
    concurrent_extends_are_serialized testDig HashAlgorithm.Sha256 wEntry
      wIdx cState0 cState3 (fun c => rfl) rfl
      (Relation.ReflTransGen.tail (Relation.ReflTransGen.tail
        (Relation.ReflTransGen.tail Relation.ReflTransGen.refl h1) h2) h3)
      (by decide)⟩

/-- C1: for every sequence of successful one-at-a-time
`extend_runtime_measurement` calls all resolving to one register `i`,
starting from an empty log and an all-zero register, the final log replayed
in order through the register-extension chaining function from the all-zero
value equals the final register value: log and register are two views of
one append-only history. -/
theorem log_replay_equals_register (dig : DigestFun) (a : AttestationAgent)
    (calls : List ExtendCall) (i : Nat)
    (hempty : a.eventlog.lines = [])
    (hzero : a.attester.regs i =
      zero_digest a.config.eventlog_config.eventlog_algorithm)
    (hidx : ∀ c ∈ calls, c.register_index.getD DEFAULT_PCR_INDEX = i)
    (hok : (runExtends dig a calls).2 = true) :
    replayLog a.attester.ext dig a.config.eventlog_config.eventlog_algorithm
        (zero_digest a.config.eventlog_config.eventlog_algorithm)
        (runExtends dig a calls).1.eventlog.lines
      = (runExtends dig a calls).1.attester.regs i := by
  obtain ⟨-, -, hrep⟩ := runExtends_replay_inv dig calls a i hidx hok
  apply hrep
  rw [hempty, hzero]
  rfl

/-- Two concrete calls, one with the default index and one with the
explicit index 17. -/
def testCalls : List ExtendCall :=
  [⟨"domain1", "operation1", "content1", none⟩,
   ⟨"domain2", "operation2", "content2", some 17⟩]

/-- Witness for C1: two concrete calls on the healthy agent. -/
theorem log_replay_equals_register_witness :
    testAgent.eventlog.lines = []
    ∧ testAgent.attester.regs 17 =
        zero_digest testAgent.config.eventlog_config.eventlog_algorithm
    ∧ (∀ c ∈ testCalls, c.register_index.getD DEFAULT_PCR_INDEX = 17)
    ∧ (runExtends testDig testAgent testCalls).2 = true
    ∧ replayLog testAgent.attester.ext testDig
        testAgent.config.eventlog_config.eventlog_algorithm
        (zero_digest testAgent.config.eventlog_config.eventlog_algorithm)
        (runExtends testDig testAgent testCalls).1.eventlog.lines
      = (runExtends testDig testAgent testCalls).1.attester.regs 17 :=
  ⟨rfl, rfl, by decide, rfl,
    log_replay_equals_register testDig testAgent testCalls 17 rfl rfl
      (by decide) rfl⟩

/-- C3: if the attester's register-extension step fails, both
`extend_runtime_measurement` and `init` return the error to the caller and
leave the whole agent state — the event log included — exactly as it was. -/
theorem extend_failure_leaves_state_unchanged (dig : DigestFun)
    (a : AttestationAgent) (domain operation content : String)
    (register_index : Option Nat)
    (h1 : a.attester.extend_runtime_measurement
        ((EventEntry.new domain operation content).digest_with dig
          a.config.eventlog_config.eventlog_algorithm)
        (register_index.getD DEFAULT_PCR_INDEX) = none)
    (h2 : a.attester.extend_runtime_measurement
        (dig a.config.eventlog_config.eventlog_algorithm
          (init_entry a.config.eventlog_config.eventlog_algorithm))
        a.config.eventlog_config.init_pcr = none) :
    AttestationAgent.extend_runtime_measurement dig a domain operation
        content register_index = (a, some "extend_runtime_measurement error")
    ∧ AttestationAgent.init dig a = (a, some "write INIT entry") := by
  constructor
  · unfold AttestationAgent.extend_runtime_measurement
    simp only [h1]
  · unfold AttestationAgent.init
    simp only [h2]

/-- Witness for C3 on the concrete always-failing attester. -/
theorem extend_failure_leaves_state_unchanged_witness :
    AttestationAgent.extend_runtime_measurement testDig brokenAgent "domain"
        "operation" "content" none
      = (brokenAgent, some "extend_runtime_measurement error")
    ∧ AttestationAgent.init testDig brokenAgent
      = (brokenAgent, some "write INIT entry") :=
  extend_failure_leaves_state_unchanged testDig brokenAgent "domain"
    "operation" "content" none rfl rfl

/-- C4: a successful `init` from an empty log leaves exactly one log entry,
the INIT entry of the configured algorithm; that entry is `"INIT "` followed
by the algorithm name, `"/"`, and an all-zero lowercase hex string of the
algorithm's digest hex length (64 for SHA-256, 96 for SHA-384, 128 for
SHA-512); and the attester was asked to extend the configured init register
with the entry's digest. -/
theorem init_writes_single_zero_entry (dig : DigestFun)
    (a a' : AttestationAgent) (h0 : a.eventlog.lines = [])
    (h : AttestationAgent.init dig a = (a', none)) :
    a'.eventlog.lines =
        [init_entry a.config.eventlog_config.eventlog_algorithm]
    ∧ (∀ alg : HashAlgorithm, init_entry alg =
        "INIT " ++ alg.name ++ "/" ++ zeroHexString alg.digestHexLen)
    ∧ HashAlgorithm.digestHexLen HashAlgorithm.Sha256 = 64
    ∧ HashAlgorithm.digestHexLen HashAlgorithm.Sha384 = 96
    ∧ HashAlgorithm.digestHexLen HashAlgorithm.Sha512 = 128
    ∧ a'.attester = a.attester.extendStep
        (dig a.config.eventlog_config.eventlog_algorithm
          (init_entry a.config.eventlog_config.eventlog_algorithm))
        a.config.eventlog_config.init_pcr := by
  obtain ⟨-, ha, hl, -⟩ := AttestationAgent.init_spec h
  refine ⟨?_, ?_, rfl, rfl, rfl, ha⟩
  · rw [hl, h0]; rfl
  · intro alg; cases alg <;> rfl

/-- Witness for C4 on the concrete healthy agent. -/
theorem init_writes_single_zero_entry_witness :
    testAgent1.eventlog.lines =
        [init_entry testAgent.config.eventlog_config.eventlog_algorithm]
    ∧ (∀ alg : HashAlgorithm, init_entry alg =
        "INIT " ++ alg.name ++ "/" ++ zeroHexString alg.digestHexLen)
    ∧ HashAlgorithm.digestHexLen HashAlgorithm.Sha256 = 64
    ∧ HashAlgorithm.digestHexLen HashAlgorithm.Sha384 = 96
    ∧ HashAlgorithm.digestHexLen HashAlgorithm.Sha512 = 128
    ∧ testAgent1.attester = testAgent.attester.extendStep
        (testDig testAgent.config.eventlog_config.eventlog_algorithm
          (init_entry testAgent.config.eventlog_config.eventlog_algorithm))
        testAgent.config.eventlog_config.init_pcr :=
  init_writes_single_zero_entry testDig testAgent testAgent1 rfl rfl

/-- C5: a successful `extend_runtime_measurement` extends the register at
index `register_index.getD 17`: index `17` (`DEFAULT_PCR_INDEX`) when the
caller passes `none`, and exactly the supplied `i` when the caller passes
`some i`. -/
theorem register_index_defaults_to_17 (dig : DigestFun)
    (a a' : AttestationAgent) (domain operation content : String)
    (register_index : Option Nat)
    (h : AttestationAgent.extend_runtime_measurement dig a domain operation
      content register_index = (a', none)) :
    DEFAULT_PCR_INDEX = 17
    ∧ a'.attester = a.attester.extendStep
        ((EventEntry.new domain operation content).digest_with dig
          a.config.eventlog_config.eventlog_algorithm)
        (register_index.getD 17) :=
  ⟨rfl, (AttestationAgent.extend_rm_spec h).2.1⟩

/-- Witness for C5: one call with no register index on the concrete
agent. -/
theorem register_index_defaults_to_17_witness :
    DEFAULT_PCR_INDEX = 17
    ∧ (AttestationAgent.extend_runtime_measurement testDig testAgent
          "domain" "operation" "content" none).1.attester
      = testAgent.attester.extendStep
        ((EventEntry.new "domain" "operation" "content").digest_with testDig
          testAgent.config.eventlog_config.eventlog_algorithm)
        ((none : Option Nat).getD 17) :=
  register_index_defaults_to_17 testDig testAgent
    (AttestationAgent.extend_runtime_measurement testDig testAgent "domain"
      "operation" "content" none).1 "domain" "operation" "content" none rfl

/-- C6: `get_token` on a string naming no compiled token-getter variant
returns the "Unsupported token type" configuration error and leaves the
agent — its log and its attester included — exactly as it was. -/
theorem get_token_unknown_type_is_error
    (getKbs getCoCoAS : String → Except String Bytes)
    (a : AttestationAgent) (token_type : String)
    (h : TokenType.from_str token_type = none) :
    AttestationAgent.get_token getKbs getCoCoAS a token_type
      = (a, Except.error "Unsupported token type") := by
  unfold AttestationAgent.get_token
  simp only [h]

/-- Witness for C6 at the concrete string "unknown-type". -/
theorem get_token_unknown_type_is_error_witness :
    AttestationAgent.get_token (fun _ => Except.ok [1])
        (fun _ => Except.ok [2]) testAgent "unknown-type"
      = (testAgent, Except.error "Unsupported token type") :=
  get_token_unknown_type_is_error (fun _ => Except.ok [1])
    (fun _ => Except.ok [2]) testAgent "unknown-type" (by decide)

/-- C7: `get_evidence` and `check_init_data` delegate entirely to the
attester: the agent state (log included) is returned unchanged and the
result is the attester's answer, unmodified (evidence as raw bytes,
init-data as the tri-state result). -/
theorem get_evidence_check_init_data_delegate (a : AttestationAgent)
    (runtime_data init_data : Bytes) :
    (AttestationAgent.get_evidence a runtime_data).1 = a
    ∧ (AttestationAgent.get_evidence a runtime_data).2
      = a.attester.evidence runtime_data
    ∧ (AttestationAgent.check_init_data a init_data).1 = a
    ∧ (AttestationAgent.check_init_data a init_data).2
      = a.attester.initdata init_data :=
  ⟨rfl, rfl, rfl, rfl⟩

/-- C8: a successful `update_configuration` replaces the whole `Config`
with the parsed value — no field of the old configuration is merged in —
and the attester and event log are untouched. -/
theorem update_configuration_swaps_whole_config
    (parseConfig : String → Option Config) (a : AttestationAgent)
    (conf : String) (c : Config) (h : parseConfig conf = some c) :
    AttestationAgent.update_configuration parseConfig true a conf
      = ({ a with config := c }, none) := by
  unfold AttestationAgent.update_configuration
  simp [h]

/-- Witness for C8 with a concrete parser returning `otherConfig`. -/
theorem update_configuration_swaps_whole_config_witness :
    AttestationAgent.update_configuration (fun _ => some otherConfig) true
        testAgent "new conf"
      = ({ testAgent with config := otherConfig }, none) :=
  update_configuration_swaps_whole_config (fun _ => some otherConfig)
    testAgent "new conf" otherConfig rfl

/-- C9: `init` does not enforce an at-most-once precondition: two
successful `init` calls append two INIT entries to the log and extend the
init register twice with the INIT entry's digest. -/
theorem init_twice_appends_two_entries (dig : DigestFun)
    (a a1 a2 : AttestationAgent) (h0 : a.eventlog.lines = [])
    (h1 : AttestationAgent.init dig a = (a1, none))
    (h2 : AttestationAgent.init dig a1 = (a2, none)) :
    a2.eventlog.lines =
      [init_entry a.config.eventlog_config.eventlog_algorithm,
       init_entry a.config.eventlog_config.eventlog_algorithm]
    ∧ a2.attester.regs a.config.eventlog_config.init_pcr =
        a.attester.ext
          (a.attester.ext
            (a.attester.regs a.config.eventlog_config.init_pcr)
            (dig a.config.eventlog_config.eventlog_algorithm
              (init_entry a.config.eventlog_config.eventlog_algorithm)))
          (dig a.config.eventlog_config.eventlog_algorithm
            (init_entry a.config.eventlog_config.eventlog_algorithm)) := by
  obtain ⟨hc1, ha1, hl1, -⟩ := AttestationAgent.init_spec h1
  obtain ⟨hc2, ha2, hl2, -⟩ := AttestationAgent.init_spec h2
  rw [hc1] at hl2 ha2
  constructor
  · rw [hl2, hl1, h0]
    simp
  · rw [ha2, ha1]
    simp [Attester.extendStep]

/-- Witness for C9: two concrete `init` calls on the healthy agent. -/
theorem init_twice_appends_two_entries_witness :
    testAgent2.eventlog.lines =
      [init_entry testAgent.config.eventlog_config.eventlog_algorithm,
       init_entry testAgent.config.eventlog_config.eventlog_algorithm]
    ∧ testAgent2.attester.regs testAgent.config.eventlog_config.init_pcr =
        testAgent.attester.ext
          (testAgent.attester.ext
            (testAgent.attester.regs
              testAgent.config.eventlog_config.init_pcr)
            (testDig testAgent.config.eventlog_config.eventlog_algorithm
              (init_entry
                testAgent.config.eventlog_config.eventlog_algorithm)))
          (testDig testAgent.config.eventlog_config.eventlog_algorithm
            (init_entry
              testAgent.config.eventlog_config.eventlog_algorithm)) :=
  init_twice_appends_two_entries testDig testAgent testAgent1 testAgent2
    rfl rfl rfl

/-- C10: `update_configuration` is atomic on error: if the tempfile I/O or
the configuration parse fails, the call reports an error and the agent —
its configuration included — is exactly what it was before. -/
theorem update_configuration_unchanged_on_error
    (parseConfig : String → Option Config) (tempfileOk : Bool)
    (a : AttestationAgent) (conf : String)
    (h : tempfileOk = false ∨ parseConfig conf = none) :
    (AttestationAgent.update_configuration parseConfig tempfileOk a
      conf).1 = a
    ∧ ((AttestationAgent.update_configuration parseConfig tempfileOk a
      conf).2).isSome = true := by
  unfold AttestationAgent.update_configuration
  rcases h with h | h
  · simp [h]
  · by_cases ht : tempfileOk = false
    · simp [ht]
    · simp [ht, h]

/-- Witness for C10 with a concrete always-failing parser. -/
theorem update_configuration_unchanged_on_error_witness :
    (AttestationAgent.update_configuration (fun _ => none) true testAgent
      "bad conf").1 = testAgent
    ∧ ((AttestationAgent.update_configuration (fun _ => none) true testAgent
      "bad conf").2).isSome = true :=
  update_configuration_unchanged_on_error (fun _ => none) true testAgent
    "bad conf" (Or.inr rfl)

end AA
